import Mathlib

/-!
Verification of the placer-probability repository: the logit-space blender
(`blend_wuhan_weights.py`) and the terrain mask / hydrology pipeline
(`build_p_terrain_masked_from_dem.py`).

Real-valued raster cells are modelled by `ℝ`; the mask engine, whose code
uses only comparisons and selection, is modelled executably over `ℚ` with
`Option ℚ` cells (`none` standing for a non-finite float).
-/

namespace Placer

/-- A geotransform: the six affine coefficients GDAL reports. -/
def GeoT : Type := ℝ × ℝ × ℝ × ℝ × ℝ × ℝ

/-- A single-band raster dataset as `blend_wuhan_weights.py` sees it:
grid dimensions, geotransform, projection string, nodata sentinel and
the cell values (absolute pixel coordinates, col then row). -/
structure Raster where
  width : Nat
  height : Nat
  gt : GeoT
  proj : String
  nodata : ℝ
  data : Nat → Nat → ℝ

/-- Offsets produced by python's `range(0, size, step)` for `step > 0`. -/
def offsets (size step : Nat) : List Nat :=
  (List.range ((size + step - 1) / step)).map (fun k => k * step)

/-- The tile list walked by the nested block loops: row-major, outer loop
over row offsets, inner over column offsets; each tile is
`(x, y, cols, rows)` with `cols = min(step_x, width - x)` and
`rows = min(step_y, height - y)` exactly as in the source. -/
def tiles (w h tx ty : Nat) : List (Nat × Nat × Nat × Nat) :=
  (offsets h ty).flatMap (fun y =>
    (offsets w tx).map (fun x => (x, y, min tx (w - x), min ty (h - y))))

/-- Cell `(i, j)` lies inside tile `t = (x, y, cols, rows)`. -/
def inTile (t : Nat × Nat × Nat × Nat) (i j : Nat) : Prop :=
  t.1 ≤ i ∧ i < t.1 + t.2.2.1 ∧ t.2.1 ≤ j ∧ j < t.2.1 + t.2.2.2

instance (t : Nat × Nat × Nat × Nat) (i j : Nat) : Decidable (inTile t i j) := by
  unfold inTile; infer_instance

/-- Writing one tile: every cell of the tile receives `f i j`
(the per-cell transform evaluated at absolute coordinates), all other
cells keep their previous value.  This models `WriteArray` /
`dst.write` of a tile-sized buffer at offset `(x, y)`. -/
def writeTile {α : Type} (acc : Nat → Nat → α) (t : Nat × Nat × Nat × Nat)
    (f : Nat → Nat → α) : Nat → Nat → α :=
  fun i j => if inTile t i j then f i j else acc i j

/-- The whole windowed transform: fold the tile writes, in loop order,
over an initial (unwritten) grid. -/
def writeAll {α : Type} (w h tx ty : Nat) (f : Nat → Nat → α)
    (init : Nat → Nat → α) : Nat → Nat → α :=
  (tiles w h tx ty).foldl (fun acc t => writeTile acc t f) init

lemma mem_offsets {size step x : Nat} :
    x ∈ offsets size step ↔ ∃ k, k < (size + step - 1) / step ∧ x = k * step := by
  unfold offsets
  simp only [List.mem_map, List.mem_range]
  constructor
  · rintro ⟨k, hk, rfl⟩; exact ⟨k, hk, rfl⟩
  · rintro ⟨k, hk, rfl⟩; exact ⟨k, hk, rfl⟩

lemma mem_tiles {w h tx ty : Nat} {t : Nat × Nat × Nat × Nat} :
    t ∈ tiles w h tx ty ↔
      ∃ y ∈ offsets h ty, ∃ x ∈ offsets w tx,
        t = (x, y, min tx (w - x), min ty (h - y)) := by
  unfold tiles
  simp only [List.mem_flatMap, List.mem_map]
  constructor
  · rintro ⟨y, hy, x, hx, rfl⟩; exact ⟨y, hy, x, hx, rfl⟩
  · rintro ⟨y, hy, x, hx, rfl⟩; exact ⟨y, hy, x, hx, rfl⟩

/-- A cell already holding the transform value keeps it through any
further tile writes (each write stores the same per-cell value). -/
lemma foldl_writeTile_keep {α : Type} (f : Nat → Nat → α) (i j : Nat) :
    ∀ (L : List (Nat × Nat × Nat × Nat)) (acc : Nat → Nat → α),
      acc i j = f i j →
      (L.foldl (fun acc t => writeTile acc t f) acc) i j = f i j := by
  intro L
  induction L with
  | nil => intro acc h; simpa using h
  | cons t rest ih =>
      intro acc h
      rw [List.foldl_cons]
      apply ih
      by_cases hc : inTile t i j <;> simp [writeTile, hc, h]

/-- If some tile of the list covers `(i, j)`, the fold leaves `f i j`
there. -/
lemma foldl_writeTile_covered {α : Type} (f : Nat → Nat → α) (i j : Nat) :
    ∀ (L : List (Nat × Nat × Nat × Nat)) (acc : Nat → Nat → α),
      (∃ t ∈ L, inTile t i j) →
      (L.foldl (fun acc t => writeTile acc t f) acc) i j = f i j := by
  intro L
  induction L with
  | nil => rintro acc ⟨t, ht, -⟩; simp at ht
  | cons t rest ih =>
      rintro acc ⟨u, hu, hcov⟩
      rw [List.foldl_cons]
      rcases List.mem_cons.mp hu with rfl | hu
      · apply foldl_writeTile_keep
        simp [writeTile, hcov]
      · exact ih _ ⟨u, hu, hcov⟩

/-- The unique loop offset whose tile covers coordinate `i`:
`(i / step) * step`, a member of `offsets size step` when `i < size`. -/
lemma offset_covering {size step i : Nat} (hstep : 0 < step) (hi : i < size) :
    (i / step) * step ∈ offsets size step ∧
      (i / step) * step ≤ i ∧ i < (i / step) * step + step := by
  refine ⟨?_, Nat.div_mul_le_self i step, ?_⟩
  · rw [mem_offsets]
    refine ⟨i / step, ?_, rfl⟩
    have h1 : size + step - 1 = (size - 1) + step := by omega
    rw [h1, Nat.add_div_right _ hstep]
    have h2 : i / step ≤ (size - 1) / step :=
      Nat.div_le_div_right (by omega)
    omega
  · have h1 := Nat.div_add_mod i step
    have h2 := Nat.mod_lt i hstep
    have h3 : (i / step) * step = step * (i / step) := Nat.mul_comm _ _
    omega

/-- Every in-bounds cell is covered by a tile of the tile list. -/
lemma exists_tile_covering {w h tx ty i j : Nat}
    (htx : 0 < tx) (hty : 0 < ty) (hi : i < w) (hj : j < h) :
    ∃ t ∈ tiles w h tx ty, inTile t i j := by
  obtain ⟨hxmem, hxle, hxlt⟩ := offset_covering htx hi
  obtain ⟨hymem, hyle, hylt⟩ := offset_covering hty hj
  refine ⟨((i / tx) * tx, (j / ty) * ty,
           min tx (w - (i / tx) * tx), min ty (h - (j / ty) * ty)), ?_, ?_⟩
  · rw [mem_tiles]
    exact ⟨_, hymem, _, hxmem, rfl⟩
  · refine ⟨hxle, ?_, hyle, ?_⟩
    · dsimp only
      rcases Nat.le_total tx (w - (i / tx) * tx) with hm | hm
      · rw [Nat.min_eq_left hm]; omega
      · rw [Nat.min_eq_right hm]; omega
    · dsimp only
      rcases Nat.le_total ty (h - (j / ty) * ty) with hm | hm
      · rw [Nat.min_eq_left hm]; omega
      · rw [Nat.min_eq_right hm]; omega

/-- The value of the windowed transform at any in-bounds cell is the
per-cell transform: tile size and initial grid contents are irrelevant. -/
lemma writeAll_eq {α : Type} {w h tx ty i j : Nat}
    (f : Nat → Nat → α) (init : Nat → Nat → α)
    (htx : 0 < tx) (hty : 0 < ty) (hi : i < w) (hj : j < h) :
    writeAll w h tx ty f init i j = f i j := by
  unfold writeAll
  exact foldl_writeTile_covered f i j _ init (exists_tile_covering htx hty hi hj)

/-- Each in-bounds cell lies in exactly one tile of the tile list:
the tiles partition the grid. -/
lemma unique_tile_covering {w h tx ty i j : Nat}
    (htx : 0 < tx) (hty : 0 < ty) (hi : i < w) (hj : j < h) :
    ∃! t, t ∈ tiles w h tx ty ∧ inTile t i j := by
  obtain ⟨t₀, ht₀, hcov₀⟩ := exists_tile_covering htx hty hi hj
  refine ⟨t₀, ⟨ht₀, hcov₀⟩, ?_⟩
  rintro t ⟨ht, hcov⟩
  rw [mem_tiles] at ht ht₀
  obtain ⟨y, hy, x, hx, rfl⟩ := ht
  obtain ⟨y₀, hy₀, x₀, hx₀, rfl⟩ := ht₀
  rw [mem_offsets] at hx hy hx₀ hy₀
  obtain ⟨kx, -, rfl⟩ := hx
  obtain ⟨ky, -, rfl⟩ := hy
  obtain ⟨kx₀, -, rfl⟩ := hx₀
  obtain ⟨ky₀, -, rfl⟩ := hy₀
  unfold inTile at hcov hcov₀
  dsimp only at hcov hcov₀
  obtain ⟨ha1, ha2, ha3, ha4⟩ := hcov
  obtain ⟨hb1, hb2, hb3, hb4⟩ := hcov₀
  have ha2' : i < kx * tx + tx :=
    lt_of_lt_of_le ha2 (Nat.add_le_add_left (Nat.min_le_left _ _) _)
  have ha4' : j < ky * ty + ty :=
    lt_of_lt_of_le ha4 (Nat.add_le_add_left (Nat.min_le_left _ _) _)
  have hb2' : i < kx₀ * tx + tx :=
    lt_of_lt_of_le hb2 (Nat.add_le_add_left (Nat.min_le_left _ _) _)
  have hb4' : j < ky₀ * ty + ty :=
    lt_of_lt_of_le hb4 (Nat.add_le_add_left (Nat.min_le_left _ _) _)
  have hkx : i / tx = kx :=
    Nat.div_eq_of_lt_le ha1 (by rw [Nat.succ_mul]; exact ha2')
  have hkx₀ : i / tx = kx₀ :=
    Nat.div_eq_of_lt_le hb1 (by rw [Nat.succ_mul]; exact hb2')
  have hky : j / ty = ky :=
    Nat.div_eq_of_lt_le ha3 (by rw [Nat.succ_mul]; exact ha4')
  have hky₀ : j / ty = ky₀ :=
    Nat.div_eq_of_lt_le hb3 (by rw [Nat.succ_mul]; exact hb4')
  have hx : kx = kx₀ := by omega
  have hy : ky = ky₀ := by omega
  rw [hx, hy]

/-! ### The logit-space blender (`blend_wuhan_weights.py`, `blend_probabilities`) -/

/-- `np.clip(x, lo, hi)`: `min(max(x, lo), hi)` (when `lo > hi` the upper
bound wins, as in numpy). -/
noncomputable def clip (lo hi x : ℝ) : ℝ := min (max x lo) hi

open Classical in
/-- The per-cell blend transform, lines 143-151 of the source: the nodata
mask is taken on the raw base value, the base value is clamped into
`[eps, 1-eps]`, a non-positive weight is replaced by the neutral value,
and the logit of the clamped base is shifted by
`strength * (weight - neutral)` before applying the logistic. -/
noncomputable def blendCell (nodata strength neutral eps : ℝ) (p w : ℝ) : ℝ :=
  if p = nodata then nodata
  else
    let q := clip eps (1 - eps) p
    let weff := if 0 < w then w else neutral
    let logit := Real.log (q / (1 - q))
    let shifted := logit + strength * (weff - neutral)
    1 / (1 + Real.exp (-shifted))

/-- The full grid of blended values produced by the nested block loops of
`blend_probabilities` (lines 136-153), starting from the freshly created
(all-zero) output band and writing one tile at a time with block size
`(tx, ty)`. -/
noncomputable def blendData (base weight : Raster)
    (strength neutral eps : ℝ) (tx ty : Nat) : Nat → Nat → ℝ :=
  writeAll base.width base.height tx ty
    (fun i j => blendCell base.nodata strength neutral eps
      (base.data i j) (weight.data i j))
    (fun _ _ => 0)

/-- The two grid-compatibility failures of `blend_probabilities`; the
spec's error taxonomy calls both `GridMismatch`. -/
inductive BlendError where
  | gridMismatchSize : BlendError
  | gridMismatchTransform : BlendError
deriving DecidableEq

open Classical in
/-- `blend_probabilities` (lines 97-156): raises when the weight raster
differs from the base raster in width or height (line 110) or in
geotransform (line 114); otherwise creates the output dataset with the
base raster's dimensions, geotransform, projection and nodata sentinel
and fills it tile-by-tile with the per-cell blend. -/
noncomputable def blend_probabilities (base weight : Raster)
    (strength neutral eps : ℝ) (tx ty : Nat) : Except BlendError Raster :=
  if base.width ≠ weight.width ∨ base.height ≠ weight.height then
    .error .gridMismatchSize
  else if base.gt ≠ weight.gt then
    .error .gridMismatchTransform
  else
    .ok { width := base.width
          height := base.height
          gt := base.gt
          proj := base.proj
          nodata := base.nodata
          data := blendData base weight strength neutral eps tx ty }

/-! ### The multi-criterion mask engine (`build_p_terrain_masked_from_dem.py`,
`apply_mask`)

Cell values of the four input rasters are `Option ℚ`: `none` models a
non-finite float (`np.isfinite` false), `some v` a finite value `v`. -/

/-- A raster as `apply_mask` reads it: dimensions and `Option ℚ` cells. -/
structure QRaster where
  width : Nat
  height : Nat
  data : Nat → Nat → Option ℚ

/-- The per-cell admissibility test of lines 63-67: the probability and
all three covariates are finite and each covariate is at or below its
threshold. -/
def admissible (slope_max hand_max dist_max : ℚ)
    (p slp hd dist : Option ℚ) : Bool :=
  match p, slp, hd, dist with
  | some _, some sv, some hv, some dv =>
      decide (sv ≤ slope_max ∧ hv ≤ hand_max ∧ dv ≤ dist_max)
  | _, _, _, _ => false

/-- The per-cell mask output, lines 69-70: the output buffer starts at
zero and admissible cells receive the probability value. -/
def maskCell (slope_max hand_max dist_max : ℚ)
    (p slp hd dist : Option ℚ) : ℚ :=
  match p, slp, hd, dist with
  | some pv, some sv, some hv, some dv =>
      if sv ≤ slope_max ∧ hv ≤ hand_max ∧ dv ≤ dist_max then pv else 0
  | _, _, _, _ => 0

/-- `apply_mask` (lines 38-71): windowed loop over square windows of the
given size, writing the per-cell mask output over a zero-initialised
output raster whose dimensions come from the probability raster. -/
def apply_mask (p s hR d : QRaster)
    (slope_max hand_max dist_max : ℚ) (window : Nat) : Nat → Nat → ℚ :=
  writeAll p.width p.height window window
    (fun i j => maskCell slope_max hand_max dist_max
      (p.data i j) (s.data i j) (hR.data i j) (d.data i j))
    (fun _ _ => 0)

/-! ### Attribute normalization (`blend_wuhan_weights.py`,
`rasterize_hotspots`, lines 47-71)

A feature of the hotspot layer is modelled by its attribute value:
`some a` when the field is set, `none` when it is null (OGR's `GetField`
returns `None` then). -/

/-- Failures of the normalization phase of `rasterize_hotspots`:
an empty layer (line 48), no non-null attribute value (line 56), and the
`float(None)` type error the second loop hits on a null field (line 69). -/
inductive NormError where
  | emptyLayer : NormError
  | missingAttributeData : NormError
  | typeError : NormError
deriving DecidableEq

/-- Fold-minimum over `v :: l`, python's `min(values)`. -/
def vminL (v : ℚ) (l : List ℚ) : ℚ := l.foldl min v

/-- Fold-maximum over `v :: l`, python's `max(values)`. -/
def vmaxL (v : ℚ) (l : List ℚ) : ℚ := l.foldl max v

/-- The span used by normalization: `vmax - vmin` unless the two agree,
in which case `1.0` (line 58). -/
def spanOf (v : ℚ) (l : List ℚ) : ℚ :=
  if vmaxL v l ≠ vminL v l then vmaxL v l - vminL v l else 1

instance {ε α : Type} [DecidableEq ε] [DecidableEq α] :
    DecidableEq (Except ε α) := fun a b =>
  match a, b with
  | Except.error e1, Except.error e2 =>
      match decEq e1 e2 with
      | isTrue h => isTrue (congrArg Except.error h)
      | isFalse h => isFalse (fun hc => h (by injection hc))
  | Except.ok a1, Except.ok a2 =>
      match decEq a1 a2 with
      | isTrue h => isTrue (congrArg Except.ok h)
      | isFalse h => isFalse (fun hc => h (by injection hc))
  | Except.error e1, Except.ok a2 => isFalse (fun hc => Except.noConfusion hc)
  | Except.ok a1, Except.error e2 => isFalse (fun hc => Except.noConfusion hc)

/-- The second loop of `rasterize_hotspots` (lines 67-71): walk the
features in order; a feature with value `a` receives
`(a - vmin) / span`, a feature whose field is null makes the loop raise
a type error (`float(None)`), so no result list is produced. -/
def normLoop (vmin span : ℚ) : List (Option ℚ) → Except NormError (List ℚ)
  | [] => .ok []
  | some a :: rest =>
      match normLoop vmin span rest with
      | .ok out => .ok (((a - vmin) / span) :: out)
      | .error e => .error e
  | none :: _ => .error .typeError

/-- The attribute-normalization phase of `rasterize_hotspots`: collect
the non-null values (lines 50-54), fail when the layer is empty (line 47)
or no value was found (line 55); otherwise normalize every feature with
the min and span of the collected values (lines 57-71). -/
def normalize_hotspots (feats : List (Option ℚ)) : Except NormError (List ℚ) :=
  if feats.isEmpty then .error .emptyLayer
  else
    match feats.filterMap id with
    | [] => .error .missingAttributeData
    | v :: rest => normLoop (vminL v rest) (spanOf v rest) feats

/-! ### The hydrology covariate deriver
(`build_p_terrain_masked_from_dem.py`, `run_wbt` and `main`) -/

/-- One WhiteboxTools invocation: tool name and keyword arguments. -/
structure WbtCall where
  tool : String
  args : List (String × String)
deriving DecidableEq

/-- `run_wbt` (lines 32-35): consult the tool's reported status; a falsy
status raises an error carrying the tool name and its arguments. -/
def run_wbt (ok : WbtCall → Bool) (c : WbtCall) : Except WbtCall Unit :=
  if ok c then .ok () else .error c

/-- The seven hydrology calls issued by `main` (lines 108-114), in
program order, with the keyword arguments of the source. -/
def hydroCalls (dem filled fdir facc streams dist hand slp thresh wd :
    String) : List WbtCall :=
  [ ⟨"fill_depressions", [("dem", dem), ("output", filled)]⟩,
    ⟨"d8_pointer", [("dem", filled), ("output", fdir)]⟩,
    ⟨"d8_flow_accumulation",
      [("dem", filled), ("output", facc), ("out_type", "cells")]⟩,
    ⟨"extract_streams",
      [("flow_accum", facc), ("output", streams), ("threshold", thresh)]⟩,
    ⟨"euclidean_distance", [("i", streams), ("output", dist)]⟩,
    ⟨"elevation_above_stream",
      [("dem", filled), ("streams", streams), ("output", hand), ("wd", wd)]⟩,
    ⟨"slope", [("dem", filled), ("output", slp), ("units", "degrees")]⟩ ]

/-- Sequential execution of a call list through `run_wbt`: returns the
calls actually invoked (in order) and either success or the error of the
first failing call; calls after a failure are never invoked. -/
def runCalls (ok : WbtCall → Bool) :
    List WbtCall → List WbtCall × Except WbtCall Unit
  | [] => ([], .ok ())
  | c :: rest =>
      match run_wbt ok c with
      | .ok () =>
          let r := runCalls ok rest
          (c :: r.1, r.2)
      | .error e => ([c], .error e)

/-- Call `k + 1` of the list consumes a file that call `m` (some
`m ≤ k`) produced as its `output` argument. -/
def consumesEarlierOutput (L : List WbtCall) (k : Nat) : Prop :=
  ∀ hk : k + 1 < L.length,
    ∃ m, ∃ hm : m < L.length, m ≤ k ∧
      ∃ f key, ("output", f) ∈ (L.get ⟨m, hm⟩).args ∧
        key ≠ "output" ∧ (key, f) ∈ (L.get ⟨k + 1, hk⟩).args

/-! ### Helper lemmas: the logistic function and the clamp -/

/-- The logistic value `1 / (1 + exp (-x))` is strictly positive. -/
lemma sigmoid_pos (x : ℝ) : 0 < 1 / (1 + Real.exp (-x)) := by
  have h := Real.exp_pos (-x)
  positivity

/-- The logistic value `1 / (1 + exp (-x))` is strictly below one. -/
lemma sigmoid_lt_one (x : ℝ) : 1 / (1 + Real.exp (-x)) < 1 := by
  have h := Real.exp_pos (-x)
  rw [div_lt_one (by linarith)]
  linarith

/-- The logistic function is strictly increasing. -/
lemma sigmoid_strictMono {a b : ℝ} (h : a < b) :
    1 / (1 + Real.exp (-a)) < 1 / (1 + Real.exp (-b)) := by
  have hb := Real.exp_pos (-b)
  have hlt : Real.exp (-b) < Real.exp (-a) :=
    Real.exp_lt_exp.mpr (by linarith)
  exact one_div_lt_one_div_of_lt (by linarith) (by linarith)

/-- The logistic function inverts the logit on `(0, 1)`. -/
lemma sigmoid_logit {q : ℝ} (hq0 : 0 < q) (hq1 : q < 1) :
    1 / (1 + Real.exp (-(Real.log (q / (1 - q))))) = q := by
  have h1q : 0 < 1 - q := by linarith
  have hpos : 0 < q / (1 - q) := div_pos hq0 h1q
  rw [Real.exp_neg, Real.exp_log hpos]
  rw [inv_div]
  field_simp

/-- The clamp keeps values inside `[eps, 1 - eps]`. -/
lemma clip_bounds {eps p : ℝ} (he2 : eps ≤ 1 - eps) :
    eps ≤ clip eps (1 - eps) p ∧ clip eps (1 - eps) p ≤ 1 - eps := by
  unfold clip
  exact ⟨le_min (le_max_right p eps) he2, min_le_right _ _⟩

/-- The clamp is the identity on `[eps, 1 - eps]`. -/
lemma clip_id {eps p : ℝ} (h1 : eps ≤ p) (h2 : p ≤ 1 - eps) :
    clip eps (1 - eps) p = p := by
  unfold clip
  rw [max_eq_left h1, min_eq_left h2]

open Classical in
/-- Unfolding of the per-cell blend on a non-nodata cell. -/
lemma blendCell_eq {nodata p : ℝ} (strength neutral eps w : ℝ)
    (hp : p ≠ nodata) :
    blendCell nodata strength neutral eps p w =
      1 / (1 + Real.exp (-(Real.log
          (clip eps (1 - eps) p / (1 - clip eps (1 - eps) p)) +
        strength * ((if 0 < w then w else neutral) - neutral)))) := by
  unfold blendCell
  rw [if_neg hp]

/-- A successful `blend_probabilities` returns the record built from the
base raster's metadata and the tiled blend grid. -/
lemma blend_ok_spec {base weight : Raster} {strength neutral eps : ℝ}
    {tx ty : Nat} {out : Raster}
    (hok : blend_probabilities base weight strength neutral eps tx ty =
      Except.ok out) :
    out.width = base.width ∧ out.height = base.height ∧
    out.gt = base.gt ∧ out.proj = base.proj ∧
    out.nodata = base.nodata ∧
    out.data = blendData base weight strength neutral eps tx ty := by
  unfold blend_probabilities at hok
  split_ifs at hok with h1 h2
  simp only [Except.ok.injEq] at hok
  subst hok
  exact ⟨rfl, rfl, rfl, rfl, rfl, rfl⟩

/-- Concrete geotransform used by the evaluation witnesses. -/
noncomputable def testGT : GeoT := (0, 1, 0, 0, 0, -1)

/-- A 4×4 base probability raster, cell `(3, 3)` nodata (`-9999`), every
other cell `0.5`. -/
noncomputable def testBase : Raster :=
  { width := 4, height := 4, gt := testGT, proj := "EPSG:32650",
    nodata := -9999,
    data := fun i j => if i = 3 ∧ j = 3 then -9999 else 1 / 2 }

/-- A 4×4 weight raster: `1.0` at cell `(0, 0)`, `0.5` elsewhere. -/
noncomputable def testWeight : Raster :=
  { width := 4, height := 4, gt := testGT, proj := "weights",
    nodata := 0, data := fun i j => if i = 0 ∧ j = 0 then 1 else 1 / 2 }

/-- A raster whose width disagrees with `testBase`. -/
noncomputable def testNarrow : Raster :=
  { width := 3, height := 4, gt := testGT, proj := "",
    nodata := 0, data := fun _ _ => 0 }

/-- Blending the two matching test rasters succeeds, with the expected
payload. -/
lemma testBlend_ok (strength neutral eps : ℝ) (tx ty : Nat) :
    blend_probabilities testBase testWeight strength neutral eps tx ty =
      Except.ok
        { width := 4, height := 4, gt := testGT, proj := "EPSG:32650",
          nodata := -9999,
          data := blendData testBase testWeight strength neutral eps tx ty } := by
  unfold blend_probabilities
  rw [if_neg (by simp [testBase, testWeight]),
      if_neg (by simp [testBase, testWeight])]
  rfl

/-! ### Claim theorems -/

open Classical in
/-- Claim C1: on every non-nodata in-bounds cell, the blend output holds
`1 / (1 + exp (-(ln (q / (1 - q)) + s * (w2 - n))))`, with `q` the base
value clamped into `[eps, 1 - eps]` and `w2` the weight when it is
strictly positive, else the neutral value; in particular with `p = 0.5`,
`w = 1.0`, `s = 2.0`, `n = 0.5` the cell holds
`sigmoid 1 ≈ 0.7311` (within `10⁻⁴`). -/
theorem blend_per_cell_formula
    (base weight : Raster) (strength neutral eps : ℝ) (tx ty : Nat)
    (out : Raster) (i j : Nat)
    (htx : 0 < tx) (hty : 0 < ty)
    (hok : blend_probabilities base weight strength neutral eps tx ty =
      Except.ok out)
    (hi : i < base.width) (hj : j < base.height)
    (hnod : base.data i j ≠ base.nodata) :
    out.data i j =
      1 / (1 + Real.exp (-(Real.log
          (clip eps (1 - eps) (base.data i j) /
            (1 - clip eps (1 - eps) (base.data i j))) +
        strength *
          ((if 0 < weight.data i j then weight.data i j else neutral) -
            neutral)))) ∧
    blendCell (-9999) 2 (1 / 2) (1 / 1000000) (1 / 2) 1 =
      1 / (1 + Real.exp (-1)) ∧
    |1 / (1 + Real.exp (-1)) - 7311 / 10000| < 1 / 10000 := by
  refine ⟨?_, ?_, ?_⟩
  · obtain ⟨-, -, -, -, -, hdata⟩ := blend_ok_spec hok
    rw [hdata]
    unfold blendData
    rw [writeAll_eq _ _ htx hty hi hj]
    exact blendCell_eq strength neutral eps _ hnod
  · rw [blendCell_eq 2 (1 / 2) (1 / 1000000) 1
      (show (1 / 2 : ℝ) ≠ -9999 by norm_num)]
    rw [clip_id (by norm_num) (by norm_num)]
    rw [if_pos (show (0 : ℝ) < 1 by norm_num)]
    norm_num
  · have hE1 : (2.7182818283 : ℝ) < Real.exp 1 := Real.exp_one_gt_d9
    have hE2 : Real.exp 1 < 2.7182818286 := Real.exp_one_lt_d9
    have hEpos : (0 : ℝ) < Real.exp 1 := Real.exp_pos 1
    have hIlt : (Real.exp 1)⁻¹ < 269 / 731 := by
      have h : (731 / 269 : ℝ) < Real.exp 1 := by linarith
      have h2 : 1 / Real.exp 1 < 1 / (731 / 269 : ℝ) :=
        one_div_lt_one_div_of_lt (by norm_num) h
      rw [one_div] at h2
      linarith [h2]
    have hIgt : (3678 / 10000 : ℝ) < (Real.exp 1)⁻¹ := by
      have h : Real.exp 1 < (10000 / 3678 : ℝ) := by linarith
      have h2 : 1 / (10000 / 3678 : ℝ) < 1 / Real.exp 1 :=
        one_div_lt_one_div_of_lt hEpos h
      simp only [one_div] at h2
      norm_num at h2
      linarith [h2]
    have hneg : Real.exp (-1 : ℝ) = (Real.exp 1)⁻¹ := Real.exp_neg 1
    have hIpos : (0 : ℝ) < (Real.exp 1)⁻¹ := by positivity
    have hden : (0 : ℝ) < 1 + (Real.exp 1)⁻¹ := by linarith
    rw [hneg, abs_lt]
    constructor
    · have hlow : (7310 / 10000 : ℝ) < 1 / (1 + (Real.exp 1)⁻¹) := by
        rw [lt_div_iff₀ hden]
        linarith
      linarith
    · have hhigh : 1 / (1 + (Real.exp 1)⁻¹) < (7312 / 10000 : ℝ) := by
        rw [div_lt_iff₀ hden]
        linarith
      linarith

open Classical in
/-- Evaluation of the C1 theorem on a concrete 4×4 grid with block size
2×2 at cell `(1, 1)`. -/
theorem blend_per_cell_formula_witness :
    blendData testBase testWeight 2 (1 / 2) (1 / 1000000) 2 2 1 1 =
      1 / (1 + Real.exp (-(Real.log
          (clip (1 / 1000000) (1 - 1 / 1000000) (testBase.data 1 1) /
            (1 - clip (1 / 1000000) (1 - 1 / 1000000) (testBase.data 1 1))) +
        2 * ((if 0 < testWeight.data 1 1 then testWeight.data 1 1 else 1 / 2) -
          1 / 2)))) :=
  (blend_per_cell_formula testBase testWeight 2 (1 / 2) (1 / 1000000) 2 2
    { width := 4, height := 4, gt := testGT, proj := "EPSG:32650",
      nodata := -9999,
      data := blendData testBase testWeight 2 (1 / 2) (1 / 1000000) 2 2 }
    1 1 (by norm_num) (by norm_num)
    (testBlend_ok 2 (1 / 2) (1 / 1000000) 2 2)
    (by norm_num [testBase]) (by norm_num [testBase])
    (by norm_num [testBase])).1

/-- Claim C2: on every in-bounds cell of a successful blend, a nodata
base cell propagates the sentinel exactly, and every other cell holds a
value strictly between 0 and 1. -/
theorem blend_output_range
    (base weight : Raster) (strength neutral eps : ℝ) (tx ty : Nat)
    (out : Raster) (i j : Nat)
    (htx : 0 < tx) (hty : 0 < ty)
    (hok : blend_probabilities base weight strength neutral eps tx ty =
      Except.ok out)
    (hi : i < base.width) (hj : j < base.height) :
    (base.data i j = base.nodata → out.data i j = base.nodata) ∧
    (base.data i j ≠ base.nodata →
      0 < out.data i j ∧ out.data i j < 1) := by
  obtain ⟨-, -, -, -, -, hdata⟩ := blend_ok_spec hok
  rw [hdata]
  unfold blendData
  rw [writeAll_eq _ _ htx hty hi hj]
  constructor
  · intro h
    unfold blendCell
    rw [if_pos h]
  · intro h
    rw [blendCell_eq strength neutral eps _ h]
    exact ⟨sigmoid_pos _, sigmoid_lt_one _⟩

/-- Evaluation of the C2 theorem on the concrete grid: the nodata cell
`(3, 3)` propagates `-9999`, the ordinary cell `(1, 1)` lands in
`(0, 1)`. -/
theorem blend_output_range_witness :
    blendData testBase testWeight 2 (1 / 2) (1 / 1000000) 2 2 3 3 =
      testBase.nodata ∧
    (0 < blendData testBase testWeight 2 (1 / 2) (1 / 1000000) 2 2 1 1 ∧
     blendData testBase testWeight 2 (1 / 2) (1 / 1000000) 2 2 1 1 < 1) :=
  ⟨(blend_output_range testBase testWeight 2 (1 / 2) (1 / 1000000) 2 2
      { width := 4, height := 4, gt := testGT, proj := "EPSG:32650",
        nodata := -9999,
        data := blendData testBase testWeight 2 (1 / 2) (1 / 1000000) 2 2 }
      3 3 (by norm_num) (by norm_num)
      (testBlend_ok 2 (1 / 2) (1 / 1000000) 2 2)
      (by norm_num [testBase]) (by norm_num [testBase])).1
    (by norm_num [testBase]),
   (blend_output_range testBase testWeight 2 (1 / 2) (1 / 1000000) 2 2
      { width := 4, height := 4, gt := testGT, proj := "EPSG:32650",
        nodata := -9999,
        data := blendData testBase testWeight 2 (1 / 2) (1 / 1000000) 2 2 }
      1 1 (by norm_num) (by norm_num)
      (testBlend_ok 2 (1 / 2) (1 / 1000000) 2 2)
      (by norm_num [testBase]) (by norm_num [testBase])).2
    (by norm_num [testBase])⟩

open Classical in
/-- Claim C3: with positive strength, nonneutral below weights replaced
only when non-positive (neutral ≥ 0), the per-cell blend is strictly
increasing in the weight above neutral; a weight strictly between 0 and
neutral gives a value strictly below the value at neutral; and a weight
equal to neutral gives exactly the clamped base value, which is the base
value itself whenever it lies in `[eps, 1 - eps]`. -/
theorem blend_weight_monotonicity
    (nodata strength neutral eps p : ℝ)
    (hs : 0 < strength) (hn : 0 ≤ neutral)
    (he : 0 < eps) (he2 : eps < 1 / 2)
    (hp : p ≠ nodata) :
    (∀ w1 w2, neutral < w2 → w2 < w1 →
      blendCell nodata strength neutral eps p w2 <
        blendCell nodata strength neutral eps p w1) ∧
    (∀ w, 0 < w → w < neutral →
      blendCell nodata strength neutral eps p w <
        blendCell nodata strength neutral eps p neutral) ∧
    blendCell nodata strength neutral eps p neutral = clip eps (1 - eps) p ∧
    (eps ≤ p → p ≤ 1 - eps →
      blendCell nodata strength neutral eps p neutral = p) := by
  have heps' : eps ≤ 1 - eps := by linarith
  have hq := clip_bounds (p := p) heps'
  have hq0 : 0 < clip eps (1 - eps) p := lt_of_lt_of_le he hq.1
  have hq1 : clip eps (1 - eps) p < 1 := lt_of_le_of_lt hq.2 (by linarith)
  have hneutral_cell :
      blendCell nodata strength neutral eps p neutral =
        clip eps (1 - eps) p := by
    rw [blendCell_eq strength neutral eps neutral hp, ite_self,
        sub_self, mul_zero, add_zero]
    exact sigmoid_logit hq0 hq1
  refine ⟨?_, ?_, hneutral_cell, ?_⟩
  · intro w1 w2 h2 h1
    have hw2 : 0 < w2 := lt_of_le_of_lt hn h2
    have hw1 : 0 < w1 := lt_trans hw2 h1
    rw [blendCell_eq strength neutral eps w2 hp,
        blendCell_eq strength neutral eps w1 hp,
        if_pos hw2, if_pos hw1]
    apply sigmoid_strictMono
    have hmul : strength * (w2 - neutral) < strength * (w1 - neutral) :=
      mul_lt_mul_of_pos_left (by linarith) hs
    linarith
  · intro w hw0 hwn
    rw [hneutral_cell, blendCell_eq strength neutral eps w hp, if_pos hw0]
    conv_rhs => rw [← sigmoid_logit hq0 hq1]
    apply sigmoid_strictMono
    have hmul : strength * (w - neutral) < 0 :=
      mul_neg_of_pos_of_neg hs (by linarith)
    linarith
  · intro h1 h2
    rw [hneutral_cell, clip_id h1 h2]

/-- Evaluation of the C3 theorem at `p = 0.3` with the default
parameters: weights `0.9 > 0.7 > 0.5` are strictly ordered in the
output, weight `0.2` falls below neutral, and neutral weight returns
`p` exactly. -/
theorem blend_weight_monotonicity_witness :
    blendCell (-9999) 2 (1 / 2) (1 / 1000000) (3 / 10) (7 / 10) <
      blendCell (-9999) 2 (1 / 2) (1 / 1000000) (3 / 10) (9 / 10) ∧
    blendCell (-9999) 2 (1 / 2) (1 / 1000000) (3 / 10) (1 / 5) <
      blendCell (-9999) 2 (1 / 2) (1 / 1000000) (3 / 10) (1 / 2) ∧
    blendCell (-9999) 2 (1 / 2) (1 / 1000000) (3 / 10) (1 / 2) = 3 / 10 :=
  ⟨(blend_weight_monotonicity (-9999) 2 (1 / 2) (1 / 1000000) (3 / 10)
      (by norm_num) (by norm_num) (by norm_num) (by norm_num)
      (by norm_num)).1 (9 / 10) (7 / 10) (by norm_num) (by norm_num),
   (blend_weight_monotonicity (-9999) 2 (1 / 2) (1 / 1000000) (3 / 10)
      (by norm_num) (by norm_num) (by norm_num) (by norm_num)
      (by norm_num)).2.1 (1 / 5) (by norm_num) (by norm_num),
   (blend_weight_monotonicity (-9999) 2 (1 / 2) (1 / 1000000) (3 / 10)
      (by norm_num) (by norm_num) (by norm_num) (by norm_num)
      (by norm_num)).2.2.2 (by norm_num) (by norm_num)⟩

/-- Claim C5: `blend_probabilities` fails exactly when the two rasters
differ in width, height or geotransform; when all three agree it
returns the blended dataset. -/
theorem blend_grid_mismatch
    (base weight : Raster) (strength neutral eps : ℝ) (tx ty : Nat) :
    ((∃ e, blend_probabilities base weight strength neutral eps tx ty =
        Except.error e) ↔
      (base.width ≠ weight.width ∨ base.height ≠ weight.height ∨
        base.gt ≠ weight.gt)) ∧
    (base.width = weight.width → base.height = weight.height →
      base.gt = weight.gt →
      blend_probabilities base weight strength neutral eps tx ty =
        Except.ok
          { width := base.width, height := base.height, gt := base.gt,
            proj := base.proj, nodata := base.nodata,
            data := blendData base weight strength neutral eps tx ty }) := by
  unfold blend_probabilities
  constructor
  · constructor
    · rintro ⟨e, he⟩
      by_contra hcon
      push_neg at hcon
      obtain ⟨hw, hh, hg⟩ := hcon
      rw [if_neg (by simp [hw, hh]), if_neg (by simp [hg])] at he
      exact Except.noConfusion he
    · intro h
      by_cases h1 : base.width ≠ weight.width ∨ base.height ≠ weight.height
      · rw [if_pos h1]
        exact ⟨_, rfl⟩
      · have h2 : base.gt ≠ weight.gt := by tauto
        rw [if_neg h1, if_pos h2]
        exact ⟨_, rfl⟩
  · intro hw hh hg
    rw [if_neg (by simp [hw, hh]), if_neg (by simp [hg])]

/-- Evaluation of the C5 theorem: two grids that agree in width, height
and geotransform blend successfully. -/
theorem blend_grid_mismatch_witness :
    blend_probabilities testBase testWeight 2 (1 / 2) (1 / 1000000) 2 2 =
      Except.ok
        { width := testBase.width, height := testBase.height,
          gt := testBase.gt, proj := testBase.proj,
          nodata := testBase.nodata,
          data := blendData testBase testWeight 2 (1 / 2) (1 / 1000000) 2 2 } :=
  (blend_grid_mismatch testBase testWeight 2 (1 / 2) (1 / 1000000) 2 2).2
    (by norm_num [testBase, testWeight]) (by norm_num [testBase, testWeight])
    (by norm_num [testBase, testWeight])

/-- Claim C10: the output dataset of a successful blend inherits width,
height, geotransform, projection and nodata sentinel from the base
raster alone; none of the weight raster's metadata reaches the output. -/
theorem blend_metadata_inheritance
    (base weight : Raster) (strength neutral eps : ℝ) (tx ty : Nat)
    (out : Raster)
    (hok : blend_probabilities base weight strength neutral eps tx ty =
      Except.ok out) :
    out.width = base.width ∧ out.height = base.height ∧
    out.gt = base.gt ∧ out.proj = base.proj ∧
    out.nodata = base.nodata := by
  obtain ⟨h1, h2, h3, h4, h5, -⟩ := blend_ok_spec hok
  exact ⟨h1, h2, h3, h4, h5⟩

/-- Evaluation of the C10 theorem on the concrete blend, whose weight
raster carries a different projection and nodata value than the base:
the output still inherits the base metadata. -/
theorem blend_metadata_inheritance_witness :
    ({ width := 4, height := 4, gt := testGT, proj := "EPSG:32650",
       nodata := -9999,
       data := blendData testBase testWeight 2 (1 / 2) (1 / 1000000) 2 2 } :
        Raster).width = testBase.width ∧
    ({ width := 4, height := 4, gt := testGT, proj := "EPSG:32650",
       nodata := -9999,
       data := blendData testBase testWeight 2 (1 / 2) (1 / 1000000) 2 2 } :
        Raster).height = testBase.height ∧
    ({ width := 4, height := 4, gt := testGT, proj := "EPSG:32650",
       nodata := -9999,
       data := blendData testBase testWeight 2 (1 / 2) (1 / 1000000) 2 2 } :
        Raster).gt = testBase.gt ∧
    ({ width := 4, height := 4, gt := testGT, proj := "EPSG:32650",
       nodata := -9999,
       data := blendData testBase testWeight 2 (1 / 2) (1 / 1000000) 2 2 } :
        Raster).proj = testBase.proj ∧
    ({ width := 4, height := 4, gt := testGT, proj := "EPSG:32650",
       nodata := -9999,
       data := blendData testBase testWeight 2 (1 / 2) (1 / 1000000) 2 2 } :
        Raster).nodata = testBase.nodata :=
  blend_metadata_inheritance testBase testWeight 2 (1 / 2) (1 / 1000000) 2 2
    _ (testBlend_ok 2 (1 / 2) (1 / 1000000) 2 2)

/-- Counterexample to claim C4 as stated: at a cell whose probability
value is `0.0` the mask output equals the input value even though the
slope threshold is violated, so "output equals the input probability
value if and only if the cell is admissible" fails in the only-if
direction. -/
theorem mask_iff_counterexample :
    maskCell 10 15 300 (some 0) (some 12) (some 5) (some 50) = 0 ∧
    admissible 10 15 300 (some 0) (some 12) (some 5) (some 50) = false ∧
    ¬ (maskCell 10 15 300 (some 0) (some 12) (some 5) (some 50) = 0 ↔
        admissible 10 15 300 (some 0) (some 12) (some 5) (some 50) = true) := by
  refine ⟨by decide, by decide, ?_⟩
  intro hiff
  exact absurd (hiff.mp (by decide)) (by decide)

/-- Claim C4 (amended): on every in-bounds cell, the mask output equals
the input probability value whenever probability, slope, HAND and
distance are all finite and the three thresholds hold, and it is exactly
`0.0` whenever the cell is not admissible (any threshold exceeded or any
of the four values non-finite). -/
theorem mask_admissibility
    (Pr Sl Hd Di : QRaster) (slope_max hand_max dist_max : ℚ)
    (window i j : Nat)
    (hw : 0 < window) (hi : i < Pr.width) (hj : j < Pr.height) :
    (admissible slope_max hand_max dist_max
        (Pr.data i j) (Sl.data i j) (Hd.data i j) (Di.data i j) = true →
      some (apply_mask Pr Sl Hd Di slope_max hand_max dist_max window i j) =
        Pr.data i j) ∧
    (admissible slope_max hand_max dist_max
        (Pr.data i j) (Sl.data i j) (Hd.data i j) (Di.data i j) = false →
      apply_mask Pr Sl Hd Di slope_max hand_max dist_max window i j = 0) := by
  unfold apply_mask
  rw [writeAll_eq _ _ hw hw hi hj]
  rcases hp : Pr.data i j with _ | pv <;>
    rcases hs : Sl.data i j with _ | sv <;>
      rcases hh : Hd.data i j with _ | hv <;>
        rcases hd : Di.data i j with _ | dv <;>
          simp only [admissible, maskCell] <;>
            constructor <;> intro h <;>
              first
                | trivial
                | simp_all

/-- Concrete probability raster for the mask witnesses: all cells
`0.73`. -/
def testProb : QRaster := ⟨2, 2, fun _ _ => some (73 / 100)⟩

/-- Concrete slope raster: column 0 has slope 5°, column 1 slope 12°. -/
def testSlope : QRaster := ⟨2, 2, fun i _ => if i = 0 then some 5 else some 12⟩

/-- Concrete HAND raster: all cells 5 m. -/
def testHand : QRaster := ⟨2, 2, fun _ _ => some 5⟩

/-- Concrete distance raster: all cells 50 m. -/
def testDist : QRaster := ⟨2, 2, fun _ _ => some 50⟩

/-- Evaluation of the C4 theorem on the concrete rasters: the admissible
cell `(0, 0)` passes `0.73` through, the steep cell `(1, 0)` is zeroed. -/
theorem mask_admissibility_witness :
    some (apply_mask testProb testSlope testHand testDist 10 15 300 1 0 0) =
      testProb.data 0 0 ∧
    apply_mask testProb testSlope testHand testDist 10 15 300 1 1 0 = 0 :=
  ⟨(mask_admissibility testProb testSlope testHand testDist 10 15 300 1 0 0
      (by decide) (by decide) (by decide)).1 (by decide),
   (mask_admissibility testProb testSlope testHand testDist 10 15 300 1 1 0
      (by decide) (by decide) (by decide)).2 (by decide)⟩

/-- Claim C8: both windowed transforms are tiling-invariant — at every
in-bounds cell the blend grid and the mask grid are independent of the
block size used — and the tiles of any block size partition the grid,
covering every in-bounds cell exactly once. -/
theorem tiling_invariance :
    (∀ (base weight : Raster) (strength neutral eps : ℝ)
        (tx1 ty1 tx2 ty2 i j : Nat),
      0 < tx1 → 0 < ty1 → 0 < tx2 → 0 < ty2 →
      i < base.width → j < base.height →
      blendData base weight strength neutral eps tx1 ty1 i j =
        blendData base weight strength neutral eps tx2 ty2 i j) ∧
    (∀ (Pr Sl Hd Di : QRaster) (slope_max hand_max dist_max : ℚ)
        (w1 w2 i j : Nat),
      0 < w1 → 0 < w2 → i < Pr.width → j < Pr.height →
      apply_mask Pr Sl Hd Di slope_max hand_max dist_max w1 i j =
        apply_mask Pr Sl Hd Di slope_max hand_max dist_max w2 i j) ∧
    (∀ w h tx ty i j, 0 < tx → 0 < ty → i < w → j < h →
      ∃! t, t ∈ tiles w h tx ty ∧ inTile t i j) := by
  refine ⟨?_, ?_, ?_⟩
  · intro base weight strength neutral eps tx1 ty1 tx2 ty2 i j
      h1 h2 h3 h4 hi hj
    unfold blendData
    rw [writeAll_eq _ _ h1 h2 hi hj, writeAll_eq _ _ h3 h4 hi hj]
  · intro Pr Sl Hd Di slope_max hand_max dist_max w1 w2 i j
      h1 h2 hi hj
    unfold apply_mask
    rw [writeAll_eq _ _ h1 h1 hi hj, writeAll_eq _ _ h2 h2 hi hj]
  · intro w h tx ty i j htx hty hi hj
    exact unique_tile_covering htx hty hi hj

/-- Evaluation of the C8 theorem: block sizes 2×2 and 3×3 agree on the
blend at cell `(1, 1)`, and windows 1 and 2 agree on the mask at
`(1, 0)`. -/
theorem tiling_invariance_witness :
    blendData testBase testWeight 2 (1 / 2) (1 / 1000000) 2 2 1 1 =
      blendData testBase testWeight 2 (1 / 2) (1 / 1000000) 3 3 1 1 ∧
    apply_mask testProb testSlope testHand testDist 10 15 300 1 1 0 =
      apply_mask testProb testSlope testHand testDist 10 15 300 2 1 0 :=
  ⟨tiling_invariance.1 testBase testWeight 2 (1 / 2) (1 / 1000000) 2 2 3 3 1 1
      (by decide) (by decide) (by decide) (by decide)
      (by decide) (by decide),
   tiling_invariance.2.1 testProb testSlope testHand testDist 10 15 300 1 2 1 0
      (by decide) (by decide) (by decide) (by decide)⟩

/-! ### Lemmas about the fold-minimum, fold-maximum and the
normalization loop -/

lemma vminL_cons (v x : ℚ) (l : List ℚ) :
    vminL v (x :: l) = vminL (min v x) l := rfl

lemma vmaxL_cons (v x : ℚ) (l : List ℚ) :
    vmaxL v (x :: l) = vmaxL (max v x) l := rfl

lemma vminL_le_self (v : ℚ) (l : List ℚ) : vminL v l ≤ v := by
  induction l generalizing v with
  | nil => exact le_refl v
  | cons x l ih =>
      rw [vminL_cons]
      exact le_trans (ih (min v x)) (min_le_left v x)

lemma vminL_le_mem {a : ℚ} (v : ℚ) {l : List ℚ} (ha : a ∈ l) :
    vminL v l ≤ a := by
  induction l generalizing v with
  | nil => simp at ha
  | cons x l ih =>
      rw [vminL_cons]
      rcases List.mem_cons.mp ha with rfl | ha
      · exact le_trans (vminL_le_self _ _) (min_le_right v a)
      · exact ih _ ha

lemma le_vmaxL_self (v : ℚ) (l : List ℚ) : v ≤ vmaxL v l := by
  induction l generalizing v with
  | nil => exact le_refl v
  | cons x l ih =>
      rw [vmaxL_cons]
      exact le_trans (le_max_left v x) (ih (max v x))

lemma le_vmaxL_mem {a : ℚ} (v : ℚ) {l : List ℚ} (ha : a ∈ l) :
    a ≤ vmaxL v l := by
  induction l generalizing v with
  | nil => simp at ha
  | cons x l ih =>
      rw [vmaxL_cons]
      rcases List.mem_cons.mp ha with rfl | ha
      · exact le_trans (le_max_right v a) (le_vmaxL_self _ _)
      · exact ih _ ha

lemma vminL_le_vmaxL (v : ℚ) (l : List ℚ) : vminL v l ≤ vmaxL v l :=
  le_trans (vminL_le_self v l) (le_vmaxL_self v l)

/-- The fold-minimum is attained: it is the seed or a list member. -/
lemma vminL_mem (v : ℚ) (l : List ℚ) : vminL v l = v ∨ vminL v l ∈ l := by
  induction l generalizing v with
  | nil => exact Or.inl rfl
  | cons x l ih =>
      rw [vminL_cons]
      rcases ih (min v x) with h | h
      · rcases min_cases v x with ⟨hm, -⟩ | ⟨hm, -⟩
        · exact Or.inl (h.trans hm)
        · exact Or.inr (by rw [h, hm]; exact List.mem_cons_self _ _)
      · exact Or.inr (List.mem_cons_of_mem _ h)

/-- The fold-maximum is attained: it is the seed or a list member. -/
lemma vmaxL_mem (v : ℚ) (l : List ℚ) : vmaxL v l = v ∨ vmaxL v l ∈ l := by
  induction l generalizing v with
  | nil => exact Or.inl rfl
  | cons x l ih =>
      rw [vmaxL_cons]
      rcases ih (max v x) with h | h
      · rcases max_cases v x with ⟨hm, -⟩ | ⟨hm, -⟩
        · exact Or.inl (h.trans hm)
        · exact Or.inr (by rw [h, hm]; exact List.mem_cons_self _ _)
      · exact Or.inr (List.mem_cons_of_mem _ h)

/-- Each normalized value `(a - vmin) / span` computed from a value
between the minimum and the maximum lies in `[0, 1]`. -/
lemma norm_value_bounds {v a : ℚ} {l : List ℚ}
    (hm : vminL v l ≤ a) (hM : a ≤ vmaxL v l) :
    0 ≤ (a - vminL v l) / spanOf v l ∧ (a - vminL v l) / spanOf v l ≤ 1 := by
  unfold spanOf
  split_ifs with h
  · have hlt : vminL v l < vmaxL v l :=
      lt_of_le_of_ne (vminL_le_vmaxL v l) (fun he => h he.symm)
    constructor
    · exact div_nonneg (by linarith) (by linarith)
    · rw [div_le_one (by linarith)]
      linarith
  · push_neg at h
    have ha : a = vminL v l := le_antisymm (le_of_le_of_eq hM h) hm
    rw [ha]
    norm_num

/-- The normalization loop only ever fails with the type error. -/
lemma normLoop_error_eq {vmin span : ℚ} :
    ∀ {l : List (Option ℚ)} {e : NormError},
      normLoop vmin span l = Except.error e → e = NormError.typeError := by
  intro l
  induction l with
  | nil => intro e he; exact Except.noConfusion he
  | cons f rest ih =>
      intro e he
      rcases f with - | a
      · simp only [normLoop] at he
        injection he with he
        exact he.symm
      · simp only [normLoop] at he
        rcases hr : normLoop vmin span rest with e2 | out2 <;> rw [hr] at he
        · injection he with he
          subst he
          exact ih hr
        · exact Except.noConfusion he

/-- The normalization loop succeeds exactly when every feature carries a
value. -/
lemma normLoop_ok_iff {vmin span : ℚ} :
    ∀ {l : List (Option ℚ)},
      (∃ out, normLoop vmin span l = Except.ok out) ↔ ∀ f ∈ l, f ≠ none := by
  intro l
  induction l with
  | nil => simp [normLoop]
  | cons f rest ih =>
      constructor
      · rintro ⟨out, hout⟩ g hg
        rcases f with - | a
        · exact Except.noConfusion hout
        · simp only [normLoop] at hout
          rcases List.mem_cons.mp hg with rfl | hg
          · exact Option.noConfusion
          · rcases hr : normLoop vmin span rest with e2 | out2 <;>
              rw [hr] at hout
            · exact Except.noConfusion hout
            · exact ih.mp ⟨out2, hr⟩ g hg
      · intro hall
        rcases f with - | a
        · exact absurd (hall none (List.mem_cons_self _ _)) (by simp)
        · obtain ⟨out2, hout2⟩ :=
            ih.mpr (fun g hg => hall g (List.mem_cons_of_mem _ hg))
          refine ⟨((a - vmin) / span) :: out2, ?_⟩
          simp only [normLoop, hout2]

/-- A successful normalization loop maps the `k`-th feature value `a` to
`(a - vmin) / span` at position `k`. -/
lemma normLoop_get {vmin span : ℚ} :
    ∀ {l : List (Option ℚ)} {out : List ℚ},
      normLoop vmin span l = Except.ok out →
      ∀ k (hk : k < l.length) (a : ℚ), l.get ⟨k, hk⟩ = some a →
        ∀ hk2 : k < out.length, out.get ⟨k, hk2⟩ = (a - vmin) / span := by
  intro l
  induction l with
  | nil => intro out hout k hk; simp at hk
  | cons f rest ih =>
      intro out hout k hk a ha hk2
      rcases f with - | b
      · exact Except.noConfusion hout
      · simp only [normLoop] at hout
        rcases hr : normLoop vmin span rest with e2 | out2 <;>
          rw [hr] at hout
        · exact Except.noConfusion hout
        · simp only [Except.ok.injEq] at hout
          subst hout
          rcases k with - | k
          · simp only [List.get] at ha ⊢
            injection ha with ha
            rw [ha]
          · simp only [List.get] at ha ⊢
            exact ih hr k (by simpa using hk) a ha (by simpa using hk2)

/-- Every member of a successful normalization loop's output arises as
`(a - vmin) / span` for some feature value `a`. -/
lemma normLoop_mem {vmin span : ℚ} :
    ∀ {l : List (Option ℚ)} {out : List ℚ},
      normLoop vmin span l = Except.ok out →
      ∀ q ∈ out, ∃ a, some a ∈ l ∧ q = (a - vmin) / span := by
  intro l
  induction l with
  | nil =>
      intro out hout q hq
      simp only [normLoop, Except.ok.injEq] at hout
      subst hout
      simp at hq
  | cons f rest ih =>
      intro out hout q hq
      rcases f with - | b
      · exact Except.noConfusion hout
      · simp only [normLoop] at hout
        rcases hr : normLoop vmin span rest with e2 | out2 <;>
          rw [hr] at hout
        · exact Except.noConfusion hout
        · simp only [Except.ok.injEq] at hout
          subst hout
          rcases List.mem_cons.mp hq with rfl | hq
          · exact ⟨b, List.mem_cons_self _ _, rfl⟩
          · obtain ⟨a, ha, hqa⟩ := ih hr q hq
            exact ⟨a, List.mem_cons_of_mem _ ha, hqa⟩

/-- Counterexample to claim C6 as stated: the collection
`[some 2, none]` has a feature with a non-null value, yet normalization
does not succeed — the second loop of `rasterize_hotspots` evaluates
`float(None)` on the null feature and raises a type error. -/
theorem normalize_mixed_counterexample :
    normalize_hotspots [some 2, none] = Except.error NormError.typeError := by
  decide

/-- Claim C6 (amended): for a non-empty feature collection, normalization
fails with `MissingAttributeData` iff no feature carries a non-null
value; it succeeds (assigning every feature a normalized value) iff
every feature carries a non-null value; and a collection holding both
null and non-null features fails with a type error instead. -/
theorem normalize_failure_condition
    (feats : List (Option ℚ)) (hne : feats ≠ []) :
    (normalize_hotspots feats = Except.error NormError.missingAttributeData ↔
      ∀ f ∈ feats, f = none) ∧
    ((∃ out, normalize_hotspots feats = Except.ok out) ↔
      ∀ f ∈ feats, f ≠ none) ∧
    ((∃ f ∈ feats, f = none) → (∃ f ∈ feats, f ≠ none) →
      normalize_hotspots feats = Except.error NormError.typeError) := by
  have hie : feats.isEmpty = false := by
    cases feats with
    | nil => exact absurd rfl hne
    | cons f fs => rfl
  unfold normalize_hotspots
  rw [hie]
  simp only [Bool.false_eq_true, if_false]
  cases hv : feats.filterMap id with
  | nil =>
      have hall : ∀ f ∈ feats, f = none := by
        intro f hf
        have := (List.filterMap_eq_nil_iff).mp hv f hf
        simpa using this
      refine ⟨⟨fun _ => hall, fun _ => rfl⟩, ?_, ?_⟩
      · constructor
        · rintro ⟨out, hout⟩
          exact Except.noConfusion hout
        · intro hsome
          cases feats with
          | nil => exact absurd rfl hne
          | cons f fs =>
              exact absurd (hall f (List.mem_cons_self _ _))
                (hsome f (List.mem_cons_self _ _))
      · rintro - ⟨f, hf, hfne⟩
        exact absurd (hall f hf) hfne
  | cons v rest =>
      have hvmem : some v ∈ feats := by
        have : v ∈ feats.filterMap id := by
          rw [hv]; exact List.mem_cons_self _ _
        obtain ⟨x, hx, hxv⟩ := List.mem_filterMap.mp this
        have hxe : x = some v := by simpa using hxv
        rw [← hxe]
        exact hx
      refine ⟨?_, normLoop_ok_iff, ?_⟩
      · constructor
        · intro hmiss
          exact absurd (normLoop_error_eq hmiss) (by simp)
        · intro hall
          exact absurd (hall (some v) hvmem) (by simp)
      · rintro ⟨g, hg, rfl⟩ -
        rcases hr : normLoop (vminL v rest) (spanOf v rest) feats with e | out
        · rw [normLoop_error_eq hr] at hr
          exact hr
        · exact absurd (normLoop_ok_iff.mp ⟨out, hr⟩ none hg) (by simp)

/-- Evaluation of the C6 (amended) theorem: the mixed collection
`[some 2, none]` is sent to the type error by the mixed-collection
clause. -/
theorem normalize_failure_condition_witness :
    normalize_hotspots [some (2 : ℚ), none] =
      Except.error NormError.typeError :=
  (normalize_failure_condition [some (2 : ℚ), none] (by decide)).2.2
    ⟨none, by decide, rfl⟩ ⟨some 2, by decide, by decide⟩

/-- Claim C7: on a successful normalization, the `k`-th feature's value
`a` is mapped to `(a - vmin) / span`, where `vmin`/`vmax` bound every
collected value and are attained, and `span = vmax - vmin` unless the
two coincide (then `1`); every normalized value lies in `[0, 1]`;
values `{2, 5, 8}` map to `{0, 0.5, 1}` and an all-equal collection maps
to all zeros. -/
theorem normalized_value_computation
    (feats : List (Option ℚ)) (out : List ℚ) (v : ℚ) (rest : List ℚ)
    (hvals : feats.filterMap id = v :: rest)
    (hok : normalize_hotspots feats = Except.ok out) :
    (∀ k (hk : k < feats.length) (a : ℚ), feats.get ⟨k, hk⟩ = some a →
      ∀ hk2 : k < out.length,
        out.get ⟨k, hk2⟩ = (a - vminL v rest) / spanOf v rest) ∧
    (∀ a ∈ feats.filterMap id, vminL v rest ≤ a ∧ a ≤ vmaxL v rest) ∧
    (vminL v rest ∈ feats.filterMap id ∧ vmaxL v rest ∈ feats.filterMap id) ∧
    (∀ q ∈ out, 0 ≤ q ∧ q ≤ 1) ∧
    normalize_hotspots [some 2, some 5, some 8] =
      Except.ok [0, 1 / 2, 1] ∧
    normalize_hotspots [some 7, some 7, some 7] =
      Except.ok [0, 0, 0] := by
  have hie : feats.isEmpty = false := by
    cases feats with
    | nil => simp at hvals
    | cons f fs => rfl
  unfold normalize_hotspots at hok
  rw [hie] at hok
  simp only [Bool.false_eq_true, if_false] at hok
  rw [hvals] at hok
  refine ⟨?_, ?_, ?_, ?_, ?_, ?_⟩
  · exact normLoop_get hok
  · intro a ha
    rw [hvals] at ha
    rcases List.mem_cons.mp ha with rfl | ha
    · exact ⟨vminL_le_self _ _, le_vmaxL_self _ _⟩
    · exact ⟨vminL_le_mem _ ha, le_vmaxL_mem _ ha⟩
  · rw [hvals]
    constructor
    · rcases vminL_mem v rest with h | h
      · rw [h]; exact List.mem_cons_self _ _
      · exact List.mem_cons_of_mem _ h
    · rcases vmaxL_mem v rest with h | h
      · rw [h]; exact List.mem_cons_self _ _
      · exact List.mem_cons_of_mem _ h
  · intro q hq
    obtain ⟨a, ha, rfl⟩ := normLoop_mem hok q hq
    have hmem : a ∈ feats.filterMap id :=
      List.mem_filterMap.mpr ⟨some a, ha, rfl⟩
    rw [hvals] at hmem
    rcases List.mem_cons.mp hmem with rfl | hmem
    · exact norm_value_bounds (vminL_le_self _ _) (le_vmaxL_self _ _)
    · exact norm_value_bounds (vminL_le_mem _ hmem) (le_vmaxL_mem _ hmem)
  · have hfm : List.filterMap id [some (2 : ℚ), some 5, some 8] =
        [2, 5, 8] := rfl
    norm_num [normalize_hotspots, normLoop, vminL, vmaxL, spanOf,
      min_def, max_def, hfm]
  · have hfm : List.filterMap id [some (7 : ℚ), some 7, some 7] =
        [7, 7, 7] := rfl
    norm_num [normalize_hotspots, normLoop, vminL, vmaxL, spanOf,
      min_def, max_def, hfm]

/-- The concrete normalization run used to evaluate the C7 theorem. -/
lemma normalize_example_ok :
    normalize_hotspots [some 2, some 5, some 8] =
      Except.ok [0, 1 / 2, 1] := by
  have hfm : List.filterMap id [some (2 : ℚ), some 5, some 8] =
      [2, 5, 8] := rfl
  norm_num [normalize_hotspots, normLoop, vminL, vmaxL, spanOf,
    min_def, max_def, hfm]

/-- Evaluation of the C7 theorem: for values `{2, 5, 8}` the middle
feature is mapped to `(5 - 2) / 6 = 0.5`. -/
theorem normalized_value_computation_witness :
    ([0, 1 / 2, 1] : List ℚ).get ⟨1, by decide⟩ =
      (5 - vminL 2 [5, 8]) / spanOf 2 [5, 8] :=
  (normalized_value_computation [some 2, some 5, some 8] [0, 1 / 2, 1]
    2 [5, 8] rfl normalize_example_ok).1
    1 (by decide) 5 rfl (by decide)

/-! ### Lemmas about sequential tool execution -/

/-- When every call reports success, the whole list is executed in order
and the run succeeds. -/
lemma runCalls_all_ok (ok : WbtCall → Bool) :
    ∀ L : List WbtCall, (∀ c ∈ L, ok c = true) →
      runCalls ok L = (L, Except.ok ()) := by
  intro L
  induction L with
  | nil => intro h; rfl
  | cons c rest ih =>
      intro h
      have hc : ok c = true := h c (List.mem_cons_self _ _)
      have hr := ih (fun b hb => h b (List.mem_cons_of_mem _ hb))
      simp [runCalls, run_wbt, hc, hr]

/-- When the calls before `c` succeed and `c` fails, execution stops at
`c`: the trace is exactly the successful prefix followed by `c`, the
result is the error carrying `c`, and no later call is invoked. -/
lemma runCalls_fail_fast (ok : WbtCall → Bool) :
    ∀ (pre : List WbtCall) (c : WbtCall) (post : List WbtCall),
      (∀ b ∈ pre, ok b = true) → ok c = false →
      runCalls ok (pre ++ c :: post) = (pre ++ [c], Except.error c) := by
  intro pre
  induction pre with
  | nil =>
      intro c post hpre hc
      simp [runCalls, run_wbt, hc]
  | cons b pre ih =>
      intro c post hpre hc
      have hb : ok b = true := hpre b (List.mem_cons_self _ _)
      have hr := ih c post (fun x hx => hpre x (List.mem_cons_of_mem _ hx)) hc
      simp [runCalls, run_wbt, hb, hr]

/-- Claim C9: `main` issues exactly the seven hydrology operations
`fill_depressions, d8_pointer, d8_flow_accumulation, extract_streams,
euclidean_distance, elevation_above_stream, slope`, in that order; the
first consumes the input DEM and every later call consumes a file some
earlier call produced as its `output`; when every call succeeds all
seven run in order, and when a call fails (all earlier ones succeeding)
the run stops there with an error carrying that call's tool name and
arguments, no later call being invoked. -/
theorem hydrology_pipeline
    (dem filled fdir facc streams dist hand slp thresh wd : String)
    (ok : WbtCall → Bool) :
    (hydroCalls dem filled fdir facc streams dist hand slp thresh wd).map
        WbtCall.tool =
      ["fill_depressions", "d8_pointer", "d8_flow_accumulation",
       "extract_streams", "euclidean_distance", "elevation_above_stream",
       "slope"] ∧
    (∀ hlen :
        0 < (hydroCalls dem filled fdir facc streams dist hand slp
          thresh wd).length,
      ("dem", dem) ∈
        ((hydroCalls dem filled fdir facc streams dist hand slp
          thresh wd).get ⟨0, hlen⟩).args) ∧
    (∀ k, consumesEarlierOutput
      (hydroCalls dem filled fdir facc streams dist hand slp thresh wd) k) ∧
    ((∀ c ∈ hydroCalls dem filled fdir facc streams dist hand slp thresh wd,
        ok c = true) →
      runCalls ok
          (hydroCalls dem filled fdir facc streams dist hand slp thresh wd) =
        (hydroCalls dem filled fdir facc streams dist hand slp thresh wd,
          Except.ok ())) ∧
    (∀ (pre : List WbtCall) (c : WbtCall) (post : List WbtCall),
      hydroCalls dem filled fdir facc streams dist hand slp thresh wd =
        pre ++ c :: post →
      (∀ b ∈ pre, ok b = true) → ok c = false →
      runCalls ok
          (hydroCalls dem filled fdir facc streams dist hand slp thresh wd) =
        (pre ++ [c], Except.error c)) := by
  refine ⟨rfl, ?_, ?_, ?_, ?_⟩
  · intro hlen
    show ("dem", dem) ∈ [("dem", dem), ("output", filled)]
    exact List.mem_cons_self _ _
  · intro k
    intro hk
    have hk6 : k < 6 := by
      have : k + 1 < 7 := by simpa [hydroCalls] using hk
      omega
    interval_cases k
    · refine ⟨0, by simp [hydroCalls], Nat.zero_le _, filled, "dem",
        ?_, by decide, ?_⟩
      · show ("output", filled) ∈ [("dem", dem), ("output", filled)]
        simp
      · show ("dem", filled) ∈ [("dem", filled), ("output", fdir)]
        simp
    · refine ⟨0, by simp [hydroCalls], Nat.zero_le _, filled, "dem",
        ?_, by decide, ?_⟩
      · show ("output", filled) ∈ [("dem", dem), ("output", filled)]
        simp
      · show ("dem", filled) ∈
          [("dem", filled), ("output", facc), ("out_type", "cells")]
        simp
    · refine ⟨2, by simp [hydroCalls], by omega, facc, "flow_accum",
        ?_, by decide, ?_⟩
      · show ("output", facc) ∈
          [("dem", filled), ("output", facc), ("out_type", "cells")]
        simp
      · show ("flow_accum", facc) ∈
          [("flow_accum", facc), ("output", streams), ("threshold", thresh)]
        simp
    · refine ⟨3, by simp [hydroCalls], by omega, streams, "i",
        ?_, by decide, ?_⟩
      · show ("output", streams) ∈
          [("flow_accum", facc), ("output", streams), ("threshold", thresh)]
        simp
      · show ("i", streams) ∈ [("i", streams), ("output", dist)]
        simp
    · refine ⟨0, by simp [hydroCalls], Nat.zero_le _, filled, "dem",
        ?_, by decide, ?_⟩
      · show ("output", filled) ∈ [("dem", dem), ("output", filled)]
        simp
      · show ("dem", filled) ∈
          [("dem", filled), ("streams", streams), ("output", hand),
           ("wd", wd)]
        simp
    · refine ⟨0, by simp [hydroCalls], Nat.zero_le _, filled, "dem",
        ?_, by decide, ?_⟩
      · show ("output", filled) ∈ [("dem", dem), ("output", filled)]
        simp
      · show ("dem", filled) ∈
          [("dem", filled), ("output", slp), ("units", "degrees")]
        simp
  · intro hall
    exact runCalls_all_ok ok _ hall
  · intro pre c post heq hpre hc
    rw [heq]
    exact runCalls_fail_fast ok pre c post hpre hc

/-- Evaluation of the C9 theorem: with an oracle that fails exactly on
`extract_streams`, the run executes the first four calls and stops with
the error carrying the `extract_streams` call and its arguments. -/
theorem hydrology_pipeline_witness :
    runCalls (fun c => !(c.tool == "extract_streams"))
        (hydroCalls "dem.tif" "filled.tif" "d8.tif" "facc.tif"
          "streams.tif" "dist.tif" "hand.tif" "slope.tif" "1000.0" "tmp") =
      ([⟨"fill_depressions",
          [("dem", "dem.tif"), ("output", "filled.tif")]⟩,
        ⟨"d8_pointer", [("dem", "filled.tif"), ("output", "d8.tif")]⟩,
        ⟨"d8_flow_accumulation",
          [("dem", "filled.tif"), ("output", "facc.tif"),
           ("out_type", "cells")]⟩] ++
        [⟨"extract_streams",
          [("flow_accum", "facc.tif"), ("output", "streams.tif"),
           ("threshold", "1000.0")]⟩],
       Except.error
        ⟨"extract_streams",
          [("flow_accum", "facc.tif"), ("output", "streams.tif"),
           ("threshold", "1000.0")]⟩) :=
  (hydrology_pipeline "dem.tif" "filled.tif" "d8.tif" "facc.tif"
      "streams.tif" "dist.tif" "hand.tif" "slope.tif" "1000.0" "tmp"
      (fun c => !(c.tool == "extract_streams"))).2.2.2.2
    [⟨"fill_depressions", [("dem", "dem.tif"), ("output", "filled.tif")]⟩,
     ⟨"d8_pointer", [("dem", "filled.tif"), ("output", "d8.tif")]⟩,
     ⟨"d8_flow_accumulation",
       [("dem", "filled.tif"), ("output", "facc.tif"),
        ("out_type", "cells")]⟩]
    ⟨"extract_streams",
      [("flow_accum", "facc.tif"), ("output", "streams.tif"),
       ("threshold", "1000.0")]⟩
    [⟨"euclidean_distance",
       [("i", "streams.tif"), ("output", "dist.tif")]⟩,
     ⟨"elevation_above_stream",
       [("dem", "filled.tif"), ("streams", "streams.tif"),
        ("output", "hand.tif"), ("wd", "tmp")]⟩,
     ⟨"slope",
       [("dem", "filled.tif"), ("output", "slope.tif"),
        ("units", "degrees")]⟩]
    rfl (by decide) (by decide)

end Placer
